import Mathlib

/-
Verification of the LESSPayne autosmh core (run_summary.py, run_synth_fit.py)
against its natural-language specification.

Conventions of the shallow embedding:
* Python floats are modelled as rationals (ℚ).  A float NaN is modelled as
  `none` in `Option ℚ`; NaN-propagating arithmetic becomes Option-propagating
  arithmetic.
* Quantities that the source stores as square roots (standard deviations,
  combined errors) are carried as their squares, which are rational; every
  statement about such a quantity is phrased on the square.  This is exact:
  the source only ever consumes these quantities through their squares or
  compares them for the claims at hand.
* External services (scipy.optimize.brentq, the fitting engine, the session
  aggregate) are modelled as oracle parameters, constrained only by their
  documented contracts.
-/

namespace LESSPayne

/-- One row of the quick line table built by `get_quick_lines` /
`get_quick_limits` (run_summary.py): the species code and the fitted
log-abundance.  `none` models the NaN written when `model.abundances`
raises. -/
structure QLine where
  species : ℚ
  logeps : Option ℚ
deriving DecidableEq, Repr

/-- One spectral model as seen by the quick summary pipeline: the
acceptability / upper-limit flags plus the fields `get_quick_lines` and
`get_quick_limits` read. -/
structure QModel where
  isAcceptable : Bool := true
  isUpperLimit : Bool := false
  species : ℚ := 0
  logeps : Option ℚ := none
deriving DecidableEq, Repr

/-- Insert a value into a sorted duplicate-free list, keeping it sorted and
duplicate-free. -/
def insertUniq (x : ℚ) : List ℚ → List ℚ
  | [] => [x]
  | y :: ys => if x = y then y :: ys else if x < y then x :: y :: ys else y :: insertUniq x ys

/-- Embedding of `np.unique`: the sorted list of distinct values. -/
def uniqueSorted : List ℚ → List ℚ
  | [] => []
  | x :: xs => insertUniq x (uniqueSorted xs)

theorem mem_insertUniq (a x : ℚ) (l : List ℚ) : a ∈ insertUniq x l ↔ a = x ∨ a ∈ l := by
  induction l with
  | nil => simp [insertUniq]
  | cons y ys ih =>
      by_cases h1 : x = y
      · subst h1
        have he : insertUniq x (x :: ys) = x :: ys := by
          unfold insertUniq; rw [if_pos rfl]
        rw [he, List.mem_cons]
        tauto
      · by_cases h2 : x < y
        · simp only [insertUniq, if_neg h1, if_pos h2, List.mem_cons]
        · simp only [insertUniq, if_neg h1, if_neg h2, List.mem_cons, ih]; tauto

theorem sorted_insertUniq (x : ℚ) (l : List ℚ) (h : l.Sorted (· < ·)) :
    (insertUniq x l).Sorted (· < ·) := by
  induction l with
  | nil => simp [insertUniq]
  | cons y ys ih =>
      rcases List.sorted_cons.mp h with ⟨hy, hys⟩
      by_cases h1 : x = y
      · subst h1; simpa [insertUniq] using h
      · by_cases h2 : x < y
        · simp only [insertUniq, if_neg h1, if_pos h2]
          refine List.sorted_cons.mpr ⟨?_, h⟩
          intro b hb
          rcases List.mem_cons.mp hb with rfl | hb
          · exact h2
          · exact lt_trans h2 (hy b hb)
        · have hyx : y < x := lt_of_le_of_ne (not_lt.mp h2) (fun e => h1 e.symm)
          simp only [insertUniq, if_neg h1, if_neg h2]
          refine List.sorted_cons.mpr ⟨?_, ih hys⟩
          intro b hb
          rcases (mem_insertUniq b x ys).mp hb with rfl | hb
          · exact hyx
          · exact hy b hb

theorem mem_uniqueSorted (a : ℚ) (l : List ℚ) : a ∈ uniqueSorted l ↔ a ∈ l := by
  induction l with
  | nil => simp [uniqueSorted]
  | cons x xs ih => simp [uniqueSorted, mem_insertUniq, ih]

theorem sorted_uniqueSorted (l : List ℚ) : (uniqueSorted l).Sorted (· < ·) := by
  induction l with
  | nil => simp [uniqueSorted]
  | cons x xs ih => exact sorted_insertUniq x _ ih

theorem nodup_uniqueSorted (l : List ℚ) : (uniqueSorted l).Nodup :=
  (sorted_uniqueSorted l).nodup

/-- NaN-propagating sum: `np.sum` over a float column returns NaN as soon as
one entry is NaN. -/
def oadd (a b : Option ℚ) : Option ℚ :=
  match a, b with
  | some x, some y => some (x + y)
  | _, _ => none

def osum : List (Option ℚ) → Option ℚ
  | [] => some 0
  | x :: xs => oadd x (osum xs)

/-- NaN-propagating `np.mean`. -/
def omean (l : List (Option ℚ)) : Option ℚ :=
  (osum l).map (fun t => t / (l.length : ℚ))

/-- NaN-propagating `np.std` squared: the population variance (ddof = 0). -/
def ovar (l : List (Option ℚ)) : Option ℚ :=
  match omean l with
  | none => none
  | some m => omean (l.map (fun x => x.map (fun v => (v - m) ^ 2)))

/-- NaN-propagating subtraction. -/
def nsub (a b : Option ℚ) : Option ℚ :=
  match a, b with
  | some x, some y => some (x - y)
  | _, _ => none

/-- NaN-propagating `np.min` (NaN if any entry is NaN; the source only applies
it to non-empty groups, `none` on `[]` is an arbitrary extension). -/
def omin (a b : Option ℚ) : Option ℚ :=
  match a, b with
  | some x, some y => some (min x y)
  | _, _ => none

def npmin : List (Option ℚ) → Option ℚ
  | [] => none
  | [x] => x
  | x :: y :: t => omin x (npmin (y :: t))

/-- Embedding of the Python `x - int(x)` fractional part used for the
ionization tie-break.  Species codes are nonnegative, where `int` truncation
coincides with the floor. -/
def fracPart (x : ℚ) : ℚ := x - (⌊x⌋ : ℚ)

/-- Embedding of `get_quick_lines` (run_summary.py): keep each model that is
acceptable and not an upper limit, projecting the fields the summary needs. -/
def get_quick_lines (models : List QModel) : List QLine :=
  (models.filter (fun m => m.isAcceptable && !m.isUpperLimit)).map
    (fun m => { species := m.species, logeps := m.logeps })

/-- One row of the summary table of `get_quick_summary` / `get_quick_limits`.
`sigma2` and `stderr2` carry the squares of the `sigma` and `stderr` columns
(the source stores `np.std` and `np.std/sqrt(N)`). -/
structure SRow where
  species : ℚ
  n : ℕ
  logeps : Option ℚ
  sigma2 : Option ℚ
  stderr2 : Option ℚ
  xh : Option ℚ
  xfe1 : Option ℚ := none
  xfe2 : Option ℚ := none
  xfe : Option ℚ := none
deriving DecidableEq, Repr

/-- The per-species row built inside the `get_quick_summary` loop:
group size, unweighted mean, population variance, variance over N,
and mean minus the solar reference. -/
def mkSummaryRow (solar : ℚ → ℚ) (tab : List QLine) (s : ℚ) : SRow :=
  let g := tab.filter (fun l => decide (l.species = s))
  let xbar := omean (g.map QLine.logeps)
  let v := ovar (g.map QLine.logeps)
  { species := s, n := g.length, logeps := xbar, sigma2 := v,
    stderr2 := v.map (fun t => t / (g.length : ℚ)),
    xh := xbar.map (fun t => t - solar s) }

/-- Embedding of `get_feh` (run_summary.py): the Fe I reference is the [X/H]
of the first species-26.0 row (NaN when absent), the Fe II reference is the
[X/H] of the first species-26.1 row, falling back to the Fe I value when no
such row exists. -/
def get_feh (rows : List SRow) : Option ℚ × Option ℚ :=
  let feh1 := (rows.find? (fun r => decide (r.species = 26))).bind SRow.xh
  let feh2 := match rows.find? (fun r => decide (r.species = (261 / 10 : ℚ))) with
    | some r => r.xh
    | none => feh1
  (feh1, feh2)

/-- The [X/Fe] column fill of `get_quick_summary`: [X/Fe1] = [X/H] - feh1,
[X/Fe2] = [X/H] - feh2, and [X/Fe] selects [X/Fe2] exactly when the species
fractional part exceeds 0.01. -/
def addFeCols (feh1 feh2 : Option ℚ) (r : SRow) : SRow :=
  let x1 := nsub r.xh feh1
  let x2 := nsub r.xh feh2
  { r with xfe1 := x1, xfe2 := x2,
           xfe := if fracPart r.species > 1 / 100 then x2 else x1 }

/-- The pre-[X/Fe] summary table of `get_quick_summary`: one row per
`np.unique` species of the line table. -/
def baseRows (solar : ℚ → ℚ) (tab : List QLine) : List SRow :=
  (uniqueSorted (tab.map QLine.species)).map (mkSummaryRow solar tab)

/-- Embedding of `get_quick_summary` (run_summary.py): one row per
`np.unique` species of the line table, then the Fe-ratio columns. -/
def get_quick_summary (solar : ℚ → ℚ) (tab : List QLine) : List SRow :=
  let fe := get_feh (baseRows solar tab)
  (baseRows solar tab).map (addFeCols fe.1 fe.2)

/-- The upper-limit line extraction of `get_quick_limits`: keep each model
that is an upper limit and acceptable. -/
def ulLines (models : List QModel) : List QLine :=
  (models.filter (fun m => m.isUpperLimit && m.isAcceptable)).map
    (fun m => { species := m.species, logeps := m.logeps })

/-- The upper-limit summary row built inside the `get_quick_limits` loop:
minimum abundance over the species group, N = group size, NaN sigma/stderr,
and the Fe-ratio columns from the supplied (detection-summary) references. -/
def limitRow (solar : ℚ → ℚ) (ul : List QLine) (fe : Option ℚ × Option ℚ) (s : ℚ) : SRow :=
  let g := ul.filter (fun l => decide (l.species = s))
  let mn := npmin (g.map QLine.logeps)
  let xh := mn.map (fun t => t - solar s)
  let x1 := nsub xh fe.1
  let x2 := nsub xh fe.2
  { species := s, n := g.length, logeps := mn, sigma2 := none,
    stderr2 := none, xh := xh, xfe1 := x1, xfe2 := x2,
    xfe := if fracPart s > 1 / 100 then x2 else x1 }

/-- The upper-limit summary rows of `get_quick_limits`: one row per
`np.unique` species of the upper-limit line table that is not already in the
detection summary. -/
def quickLimitRows (solar : ℚ → ℚ) (models : List QModel) (summary : List SRow) :
    List SRow :=
  let ul := ulLines models
  let fe := get_feh summary
  (uniqueSorted (ul.map QLine.species)).filterMap (fun s =>
    if s ∈ summary.map SRow.species then none
    else some (limitRow solar ul fe s))

/-- Embedding of `get_quick_limits` (run_summary.py): the upper-limit lines
are appended to the line table and the upper-limit summary rows to the
summary table. -/
def get_quick_limits (solar : ℚ → ℚ) (models : List QModel) (tab : List QLine)
    (summary : List SRow) : List QLine × List SRow :=
  (tab ++ ulLines models, summary ++ quickLimitRows solar models summary)

/-- The constant solar reference of the §8 scenario:
solar(26.0) = solar(26.1) = 7.50. -/
def solarEx : ℚ → ℚ := fun _ => 15 / 2

/-- The line table of the §8 scenario. -/
def tabEx : List QLine :=
  [⟨26, some (74 / 10)⟩, ⟨26, some (75 / 10)⟩, ⟨261 / 10, some (755 / 100)⟩]

theorem nsub_none (a : Option ℚ) : nsub a none = none := by cases a <;> rfl

theorem mem_get_quick_summary (solar : ℚ → ℚ) (tab : List QLine) (r : SRow) :
    r ∈ get_quick_summary solar tab ↔
      ∃ s ∈ uniqueSorted (tab.map QLine.species),
        r = addFeCols (get_feh (baseRows solar tab)).1 (get_feh (baseRows solar tab)).2
              (mkSummaryRow solar tab s) := by
  simp only [get_quick_summary, baseRows, List.map_map, List.mem_map, Function.comp]
  constructor
  · rintro ⟨s, hs, rfl⟩; exact ⟨s, hs, rfl⟩
  · rintro ⟨s, hs, rfl⟩; exact ⟨s, hs, rfl⟩

theorem map_species_get_quick_summary (solar : ℚ → ℚ) (tab : List QLine) :
    (get_quick_summary solar tab).map SRow.species = uniqueSorted (tab.map QLine.species) := by
  simp only [get_quick_summary, baseRows, List.map_map]
  exact List.map_id _

theorem species_mem_of_mem_baseRows (solar : ℚ → ℚ) (tab : List QLine) (r : SRow)
    (hr : r ∈ baseRows solar tab) : r.species ∈ tab.map QLine.species := by
  simp only [baseRows, List.mem_map] at hr
  obtain ⟨s, hs, rfl⟩ := hr
  exact (mem_uniqueSorted s _).mp hs

/-- C3: for every non-empty collection of accepted line measurements the
aggregator produces, per exact species value, the group size N, the unweighted
arithmetic mean, the population variance (square of sigma), stderr² =
sigma²/N, and [X/H] = mean - solar; with exactly one row per distinct species.
On the §8 scenario table the result is: species 26 has N = 2, logeps = 7.45,
[X/H] = -0.05, [X/Fe] = 0; species 26.1 has N = 1, [X/H] = 0.05, [X/Fe] = 0. -/
theorem C3_quick_summary_aggregation (solar : ℚ → ℚ) (tab : List QLine)
    (_hne : tab ≠ []) :
    (∀ r ∈ get_quick_summary solar tab,
      r.species ∈ tab.map QLine.species ∧
      r.n = (tab.filter (fun l => decide (l.species = r.species))).length ∧
      r.logeps = omean ((tab.filter (fun l => decide (l.species = r.species))).map QLine.logeps) ∧
      r.sigma2 = ovar ((tab.filter (fun l => decide (l.species = r.species))).map QLine.logeps) ∧
      r.stderr2 = r.sigma2.map (fun t => t / (r.n : ℚ)) ∧
      r.xh = r.logeps.map (fun t => t - solar r.species)) ∧
    (∀ s ∈ tab.map QLine.species, ∃ r ∈ get_quick_summary solar tab, r.species = s) ∧
    ((get_quick_summary solar tab).map SRow.species).Nodup ∧
    get_quick_summary solarEx tabEx =
      [⟨26, 2, some (149 / 20), some (1 / 400), some (1 / 800), some (-(1 / 20)),
        some 0, some (-(1 / 10)), some 0⟩,
       ⟨261 / 10, 1, some (151 / 20), some 0, some 0, some (1 / 20),
        some (1 / 10), some 0, some 0⟩] := by
  refine ⟨?_, ?_, ?_, ?_⟩
  · intro r hr
    obtain ⟨s, hs, rfl⟩ := (mem_get_quick_summary solar tab r).mp hr
    have hsm : s ∈ tab.map QLine.species := (mem_uniqueSorted s _).mp hs
    refine ⟨by simpa [addFeCols, mkSummaryRow] using hsm, ?_, ?_, ?_, ?_, ?_⟩ <;>
      simp [addFeCols, mkSummaryRow]
  · intro s hs
    refine ⟨addFeCols (get_feh (baseRows solar tab)).1 (get_feh (baseRows solar tab)).2
      (mkSummaryRow solar tab s), ?_, ?_⟩
    · exact (mem_get_quick_summary solar tab _).mpr ⟨s, (mem_uniqueSorted s _).mpr hs, rfl⟩
    · simp [addFeCols, mkSummaryRow]
  · rw [map_species_get_quick_summary]
    exact nodup_uniqueSorted _
  · norm_num [get_quick_summary, baseRows, uniqueSorted, insertUniq, mkSummaryRow,
      get_feh, addFeCols, omean, osum, oadd, ovar, nsub, fracPart, solarEx, tabEx,
      List.filter_cons, List.find?_cons_of_pos, List.find?_cons_of_neg]

/-- Witness for C3 at the scenario input: the table is non-empty and the
summary has a species-26 row. -/
theorem C3_witness :
    tabEx ≠ [] ∧ ∃ r ∈ get_quick_summary solarEx tabEx, r.species = 26 :=
  ⟨by simp [tabEx],
   (C3_quick_summary_aggregation solarEx tabEx (by simp [tabEx])).2.1 26 (by simp [tabEx])⟩

theorem addFeCols_species (f1 f2 : Option ℚ) (r : SRow) :
    (addFeCols f1 f2 r).species = r.species := rfl

theorem addFeCols_xfe1 (f1 f2 : Option ℚ) (r : SRow) :
    (addFeCols f1 f2 r).xfe1 = nsub r.xh f1 := rfl

theorem addFeCols_xfe2 (f1 f2 : Option ℚ) (r : SRow) :
    (addFeCols f1 f2 r).xfe2 = nsub r.xh f2 := rfl

theorem addFeCols_xfe (f1 f2 : Option ℚ) (r : SRow) :
    (addFeCols f1 f2 r).xfe =
      if fracPart r.species > 1 / 100 then nsub r.xh f2 else nsub r.xh f1 := rfl

theorem find?_species_eq_none (solar : ℚ → ℚ) (tab : List QLine) (c : ℚ)
    (h : ∀ l ∈ tab, l.species ≠ c) :
    (baseRows solar tab).find? (fun r => decide (r.species = c)) = none := by
  rw [List.find?_eq_none]
  intro r hr
  have hs := species_mem_of_mem_baseRows solar tab r hr
  simp only [List.mem_map] at hs
  obtain ⟨l, hl, he⟩ := hs
  simp only [decide_eq_true_eq]
  exact fun e => h l hl (he.trans e)

/-- C4: every summary row selects [X/Fe2] when the species fractional part
exceeds 0.01 and [X/Fe1] otherwise; with no species-26.0 line the Fe I
reference is NaN and every neutral-species [X/Fe] is NaN; with no
species-26.1 line the Fe II reference falls back to the Fe I reference. -/
theorem C4_xfe_selection_and_fallback (solar : ℚ → ℚ) (tab : List QLine) :
    (∀ r ∈ get_quick_summary solar tab,
      (fracPart r.species > 1 / 100 → r.xfe = r.xfe2) ∧
      (fracPart r.species ≤ 1 / 100 → r.xfe = r.xfe1)) ∧
    ((∀ l ∈ tab, l.species ≠ 26) →
      (get_feh (baseRows solar tab)).1 = none ∧
      ∀ r ∈ get_quick_summary solar tab, fracPart r.species ≤ 1 / 100 → r.xfe = none) ∧
    ((∀ l ∈ tab, l.species ≠ (261 / 10 : ℚ)) →
      (get_feh (baseRows solar tab)).2 = (get_feh (baseRows solar tab)).1) := by
  refine ⟨?_, ?_, ?_⟩
  · intro r hr
    obtain ⟨s, _hs, rfl⟩ := (mem_get_quick_summary solar tab r).mp hr
    constructor
    · intro hgt
      rw [addFeCols_species] at hgt
      rw [addFeCols_xfe, if_pos hgt, addFeCols_xfe2]
    · intro hle
      rw [addFeCols_species] at hle
      rw [addFeCols_xfe, if_neg (not_lt.mpr hle), addFeCols_xfe1]
  · intro h
    have hf : (get_feh (baseRows solar tab)).1 = none := by
      simp [get_feh, find?_species_eq_none solar tab 26 h]
    refine ⟨hf, ?_⟩
    intro r hr hle
    obtain ⟨s, _hs, rfl⟩ := (mem_get_quick_summary solar tab r).mp hr
    rw [addFeCols_species] at hle
    rw [addFeCols_xfe, if_neg (not_lt.mpr hle), hf, nsub_none]
  · intro h
    have hn := find?_species_eq_none solar tab (261 / 10) h
    simp [get_feh, hn]

/-- Witness for C4 at a concrete input with a single species-27 line: the
Fe I reference is NaN and the neutral row's [X/Fe] is NaN. -/
theorem C4_witness :
    (get_feh (baseRows (fun _ => 0) [⟨27, some 5⟩])).1 = none ∧
    ∀ r ∈ get_quick_summary (fun _ => 0) [⟨27, some 5⟩],
      fracPart r.species ≤ 1 / 100 → r.xfe = none :=
  (C4_xfe_selection_and_fallback (fun _ => 0) [⟨27, some 5⟩]).2.1
    (by intro l hl; simp at hl; simp [hl])

/-- A NaN-free non-empty list has an `npmin` that is its least element. -/
theorem npmin_spec (l : List (Option ℚ)) (hne : l ≠ []) (hs : ∀ x ∈ l, x.isSome) :
    ∃ v, npmin l = some v ∧ some v ∈ l ∧ ∀ u, some u ∈ l → v ≤ u := by
  induction l with
  | nil => exact absurd rfl hne
  | cons x xs ih =>
      cases xs with
      | nil =>
          obtain ⟨v, rfl⟩ := Option.isSome_iff_exists.mp (hs x (List.mem_singleton_self x))
          refine ⟨v, rfl, List.mem_singleton_self _, ?_⟩
          intro u hu
          rcases List.mem_singleton.mp hu with h
          exact le_of_eq (Option.some.inj h).symm
      | cons y t =>
          obtain ⟨w, hw, hwm, hwb⟩ := ih (by simp) (fun z hz => hs z (List.mem_cons_of_mem x hz))
          obtain ⟨a, rfl⟩ := Option.isSome_iff_exists.mp (hs x (List.mem_cons_self x _))
          refine ⟨min a w, ?_, ?_, ?_⟩
          · show npmin (some a :: y :: t) = some (min a w)
            show omin (some a) (npmin (y :: t)) = some (min a w)
            rw [hw]; rfl
          · rcases le_total a w with hab | hab
            · rw [min_eq_left hab]; exact List.mem_cons_self _ _
            · rw [min_eq_right hab]; exact List.mem_cons_of_mem _ hwm
          · intro u hu
            rcases List.mem_cons.mp hu with h | h
            · exact (Option.some.inj h) ▸ min_le_left a w
            · exact le_trans (min_le_right a w) (hwb u h)

theorem limitRow_species (solar : ℚ → ℚ) (ul : List QLine) (fe : Option ℚ × Option ℚ)
    (s : ℚ) : (limitRow solar ul fe s).species = s := rfl

theorem limitRow_n (solar : ℚ → ℚ) (ul : List QLine) (fe : Option ℚ × Option ℚ) (s : ℚ) :
    (limitRow solar ul fe s).n = (ul.filter (fun l => decide (l.species = s))).length := rfl

theorem limitRow_logeps (solar : ℚ → ℚ) (ul : List QLine) (fe : Option ℚ × Option ℚ)
    (s : ℚ) : (limitRow solar ul fe s).logeps =
      npmin ((ul.filter (fun l => decide (l.species = s))).map QLine.logeps) := rfl

theorem limitRow_xh (solar : ℚ → ℚ) (ul : List QLine) (fe : Option ℚ × Option ℚ) (s : ℚ) :
    (limitRow solar ul fe s).xh =
      (npmin ((ul.filter (fun l => decide (l.species = s))).map QLine.logeps)).map
        (fun t => t - solar s) := rfl

theorem mem_quickLimitRows (solar : ℚ → ℚ) (models : List QModel) (summary : List SRow)
    (r : SRow) :
    r ∈ quickLimitRows solar models summary ↔
      ∃ s ∈ uniqueSorted ((ulLines models).map QLine.species),
        s ∉ summary.map SRow.species ∧
        r = limitRow solar (ulLines models) (get_feh summary) s := by
  simp only [quickLimitRows, List.mem_filterMap]
  constructor
  · rintro ⟨s, hs, hf⟩
    by_cases h : s ∈ summary.map SRow.species
    · rw [if_pos h] at hf; exact absurd hf (by simp)
    · rw [if_neg h] at hf; exact ⟨s, hs, h, (Option.some.inj hf).symm⟩
  · rintro ⟨s, hs, h, rfl⟩
    exact ⟨s, hs, by rw [if_neg h]⟩

theorem map_species_quickLimitRows (solar : ℚ → ℚ) (models : List QModel)
    (summary : List SRow) :
    (quickLimitRows solar models summary).map SRow.species =
      (uniqueSorted ((ulLines models).map QLine.species)).filter
        (fun s => !decide (s ∈ summary.map SRow.species)) := by
  simp only [quickLimitRows]
  generalize uniqueSorted ((ulLines models).map QLine.species) = L
  induction L with
  | nil => rfl
  | cons s L ih =>
      by_cases h : s ∈ summary.map SRow.species
      · rw [List.filterMap_cons_none (by rw [if_pos h]), List.filter_cons]
        simpa [h] using ih
      · rw [List.filterMap_cons_some (by rw [if_neg h]), List.filter_cons,
          List.map_cons, limitRow_species, ih]
        simp [h]

theorem ul_logeps_isSome (models : List QModel)
    (hfin : ∀ m ∈ models, m.logeps.isSome) :
    ∀ l ∈ ulLines models, l.logeps.isSome := by
  intro l hl
  simp only [ulLines, List.mem_map] at hl
  obtain ⟨m, hm, rfl⟩ := hl
  exact hfin m (List.mem_filter.mp hm).1

/-- C7: the upper-limit summary has exactly one row per species that has
accepted upper-limit lines and is absent from the detection summary; each row
uses the minimum logeps over that species' upper-limit lines, N = the count of
those lines, NaN sigma and stderr, and the rows are appended after the
detection summary. -/
theorem C7_upper_limit_summary (solar : ℚ → ℚ) (models : List QModel)
    (hfin : ∀ m ∈ models, m.logeps.isSome) :
    (∀ r ∈ quickLimitRows solar models (get_quick_summary solar (get_quick_lines models)),
      r.species ∈ (ulLines models).map QLine.species ∧
      r.species ∉ (get_quick_summary solar (get_quick_lines models)).map SRow.species ∧
      r.n = ((ulLines models).filter (fun l => decide (l.species = r.species))).length ∧
      r.sigma2 = none ∧ r.stderr2 = none ∧
      ∃ v, r.logeps = some v ∧
        some v ∈ ((ulLines models).filter
          (fun l => decide (l.species = r.species))).map QLine.logeps ∧
        (∀ u, some u ∈ ((ulLines models).filter
          (fun l => decide (l.species = r.species))).map QLine.logeps → v ≤ u) ∧
        r.xh = some (v - solar r.species)) ∧
    (∀ s ∈ (ulLines models).map QLine.species,
      s ∉ (get_quick_summary solar (get_quick_lines models)).map SRow.species →
      ∃ r ∈ quickLimitRows solar models (get_quick_summary solar (get_quick_lines models)),
        r.species = s) ∧
    ((quickLimitRows solar models
        (get_quick_summary solar (get_quick_lines models))).map SRow.species).Nodup ∧
    (get_quick_limits solar models (get_quick_lines models)
        (get_quick_summary solar (get_quick_lines models))).2 =
      get_quick_summary solar (get_quick_lines models) ++
        quickLimitRows solar models (get_quick_summary solar (get_quick_lines models)) := by
  refine ⟨?_, ?_, ?_, rfl⟩
  · intro r hr
    obtain ⟨s, hs, hnot, rfl⟩ := (mem_quickLimitRows solar models _ r).mp hr
    have hsm : s ∈ (ulLines models).map QLine.species := (mem_uniqueSorted s _).mp hs
    obtain ⟨l, hl, hls⟩ := List.mem_map.mp hsm
    have hlg : l ∈ (ulLines models).filter (fun l => decide (l.species = s)) :=
      List.mem_filter.mpr ⟨hl, by simp [hls]⟩
    have hne : ((ulLines models).filter (fun l => decide (l.species = s))).map QLine.logeps ≠ [] := by
      intro he
      exact absurd (he ▸ List.mem_map_of_mem QLine.logeps hlg) (List.not_mem_nil _)
    have hall : ∀ x ∈ ((ulLines models).filter
        (fun l => decide (l.species = s))).map QLine.logeps, x.isSome := by
      intro x hx
      obtain ⟨l2, hl2, rfl⟩ := List.mem_map.mp hx
      exact ul_logeps_isSome models hfin l2 (List.mem_filter.mp hl2).1
    obtain ⟨v, hv, hvm, hvb⟩ := npmin_spec _ hne hall
    simp only [limitRow_species]
    refine ⟨hsm, hnot, limitRow_n solar _ _ s, rfl, rfl, v, ?_, hvm, hvb, ?_⟩
    · rw [limitRow_logeps, hv]
    · rw [limitRow_xh, hv]; rfl
  · intro s hs hnot
    refine ⟨limitRow solar (ulLines models)
      (get_feh (get_quick_summary solar (get_quick_lines models))) s, ?_, rfl⟩
    exact (mem_quickLimitRows solar models _ _).mpr
      ⟨s, (mem_uniqueSorted s _).mpr hs, hnot, rfl⟩
  · rw [map_species_quickLimitRows]
    exact (nodup_uniqueSorted _).filter _

/-- Witness for C7: two accepted upper-limit species-38 lines and one
detected species-26 line produce a species-38 upper-limit row. -/
theorem C7_witness :
    ∃ r ∈ quickLimitRows solarEx [⟨true, false, 26, some (15 / 2)⟩,
        ⟨true, true, 38, some 2⟩, ⟨true, true, 38, some 3⟩]
      (get_quick_summary solarEx (get_quick_lines [⟨true, false, 26, some (15 / 2)⟩,
        ⟨true, true, 38, some 2⟩, ⟨true, true, 38, some 3⟩])),
      r.species = 38 :=
  (C7_upper_limit_summary solarEx _ (by intro m hm; fin_cases hm <;> simp)).2.1 38
    (by
      norm_num [ulLines, List.filter_cons, get_quick_lines, get_quick_summary, baseRows,
        uniqueSorted, insertUniq, mkSummaryRow, get_feh, addFeCols, omean, osum, oadd,
        ovar, nsub, fracPart, solarEx])
    (by
      norm_num [ulLines, List.filter_cons, get_quick_lines, get_quick_summary, baseRows,
        uniqueSorted, insertUniq, mkSummaryRow, get_feh, addFeCols, omean, osum, oadd,
        ovar, nsub, fracPart, solarEx, List.find?_cons_of_pos, List.find?_cons_of_neg])

/-- One spectral model as seen by the synthesis loop of `run_synth_fit.py`:
profile-fit models carry `isSynthesis = false` and are skipped by the loop. -/
structure FitModel where
  isSynthesis : Bool := true
  userFlag : Bool := false
  isAcceptable : Bool := true
  isUpperLimit : Bool := false
  species : ℚ := 0
  wavelength : ℚ := 0
  logeps : Option ℚ := none
  fwhm : Option ℚ := none
deriving DecidableEq, Repr

/-- The demotion applied by `run_synth_fit` on a terminal failure:
`model.is_acceptable = False; model.user_flag = True`. -/
def markFailed (m : FitModel) : FitModel :=
  { m with isAcceptable := false, userFlag := true }

/-- One iteration of the first fitting loop of `run_synth_fit` on one model.
The external engine call `model.iterfit` is an oracle
`fit : ℕ → Bool → FitModel → Option FitModel` (model position, whether the
smoothing `penalty_function` is passed, current model); `none` models a
raised exception, `some m2` a successful fit.  Profile models and user-flagged
models are skipped; on an exception with the penalty the fit is retried once
without it; on a second exception the model is demoted and the loop moves
on. -/
def fitOnce1 (fit : ℕ → Bool → FitModel → Option FitModel) (i : ℕ) (m : FitModel) :
    FitModel :=
  if !m.isSynthesis then m
  else if m.userFlag then m
  else
    match fit i true m with
    | some m2 => m2
    | none =>
      match fit i false m with
      | some m2 => m2
      | none => markFailed m

/-- The first fitting loop of `run_synth_fit` over the model list, threading
the model position. -/
def fitPass1 (fit : ℕ → Bool → FitModel → Option FitModel) : ℕ → List FitModel → List FitModel
  | _, [] => []
  | i, m :: ms => fitOnce1 fit i m :: fitPass1 fit (i + 1) ms

/-- C6: in a fitting pass, a fit exception with the smoothing penalty leads to
exactly one retry without the penalty; if that also raises, the model is
demoted to unacceptable+flagged (all other fields kept) and the loop moves to
the next model — the pass always processes every model of the batch. -/
theorem C6_fit_retry_then_demote (fit : ℕ → Bool → FitModel → Option FitModel) :
    (∀ i m, m.isSynthesis = true → m.userFlag = false → fit i true m = none →
      (∀ m2, fit i false m = some m2 → fitOnce1 fit i m = m2) ∧
      (fit i false m = none →
        fitOnce1 fit i m = markFailed m ∧
        (fitOnce1 fit i m).isAcceptable = false ∧
        (fitOnce1 fit i m).userFlag = true ∧
        (fitOnce1 fit i m).species = m.species ∧
        (fitOnce1 fit i m).logeps = m.logeps)) ∧
    (∀ i m m2, m.isSynthesis = true → m.userFlag = false → fit i true m = some m2 →
      fitOnce1 fit i m = m2) ∧
    (∀ i m, m.isSynthesis = false → fitOnce1 fit i m = m) ∧
    (∀ i m, m.userFlag = true → fitOnce1 fit i m = m) ∧
    (∀ i ms, (fitPass1 fit i ms).length = ms.length ∧
      ∀ j, (fitPass1 fit i ms)[j]? = (ms[j]?).map (fitOnce1 fit (i + j))) := by
  refine ⟨?_, ?_, ?_, ?_, ?_⟩
  · intro i m hsyn hflag hfail
    constructor
    · intro m2 hret
      simp [fitOnce1, hsyn, hflag, hfail, hret]
    · intro hret
      have h1 : fitOnce1 fit i m = markFailed m := by
        simp [fitOnce1, hsyn, hflag, hfail, hret]
      exact ⟨h1, by rw [h1]; rfl, by rw [h1]; rfl, by rw [h1]; rfl, by rw [h1]; rfl⟩
  · intro i m m2 hsyn hflag hfit
    simp [fitOnce1, hsyn, hflag, hfit]
  · intro i m hsyn
    simp [fitOnce1, hsyn]
  · intro i m hflag
    cases hsyn : m.isSynthesis <;> simp [fitOnce1, hsyn, hflag]
  · intro i ms
    induction ms generalizing i with
    | nil => exact ⟨rfl, fun j => rfl⟩
    | cons m ms ih =>
        refine ⟨by simp [fitPass1, (ih (i + 1)).1], ?_⟩
        intro j
        cases j with
        | zero => simp [fitPass1]
        | succ j =>
            have := (ih (i + 1)).2 j
            simpa [fitPass1, Nat.add_assoc, Nat.add_comm 1 j] using this

/-- Witness for C6: an engine that always raises demotes a default synthesis
model to unacceptable+flagged. -/
theorem C6_witness :
    fitOnce1 (fun _ _ _ => none) 0 {} = markFailed {} :=
  (((C6_fit_retry_then_demote (fun _ _ _ => none)).1 0 {} rfl rfl rfl).2 rfl).1

/-- The detection check of `run_synth_fit` on one model, after all fitting
passes.  The external engine calls are oracles: `check i sigma m` models
`model.check_line_detection(sigma)` returning (detected, delta-chi2);
`findUL i sigma m` models `model.find_upper_limit(sigma)`, `none` being a
raised exception (which the source only logs).  A synthesis model failing the
3-sigma test is demoted to unacceptable+flagged and the 5-sigma upper-limit
search runs on the demoted model. -/
def detectOnce (check : ℕ → ℚ → FitModel → Bool × ℚ)
    (findUL : ℕ → ℚ → FitModel → Option FitModel) (i : ℕ) (m : FitModel) : FitModel :=
  if m.isSynthesis then
    if (check i 3 m).1 then m
    else
      match findUL i 5 (markFailed m) with
      | some m2 => m2
      | none => markFailed m
  else m

/-- The detection-check loop of `run_synth_fit` over the model list. -/
def detectPhase (check : ℕ → ℚ → FitModel → Bool × ℚ)
    (findUL : ℕ → ℚ → FitModel → Option FitModel) : ℕ → List FitModel → List FitModel
  | _, [] => []
  | i, m :: ms => detectOnce check findUL i m :: detectPhase check findUL (i + 1) ms

/-- C5: after the fitting passes every synthesis model is detection-tested at
the 3-sigma threshold; a failing model is demoted to unacceptable+flagged and
the 5-sigma upper-limit search is attempted on it; a raised search leaves the
demoted model as is and the loop continues through the whole batch; an
unacceptable model contributes a row to neither output table. -/
theorem C5_detection_and_upper_limit (check : ℕ → ℚ → FitModel → Bool × ℚ)
    (findUL : ℕ → ℚ → FitModel → Option FitModel) :
    (∀ i m, m.isSynthesis = true → (check i 3 m).1 = false →
      (markFailed m).isAcceptable = false ∧ (markFailed m).userFlag = true ∧
      (findUL i 5 (markFailed m) = none →
        detectOnce check findUL i m = markFailed m ∧
        (detectOnce check findUL i m).isAcceptable = false ∧
        (detectOnce check findUL i m).userFlag = true ∧
        (detectOnce check findUL i m).logeps = m.logeps) ∧
      (∀ m2, findUL i 5 (markFailed m) = some m2 → detectOnce check findUL i m = m2)) ∧
    (∀ i m, m.isSynthesis = true → (check i 3 m).1 = true →
      detectOnce check findUL i m = m) ∧
    (∀ i m, m.isSynthesis = false → detectOnce check findUL i m = m) ∧
    (∀ i ms, (detectPhase check findUL i ms).length = ms.length ∧
      ∀ j, (detectPhase check findUL i ms)[j]? = (ms[j]?).map (detectOnce check findUL (i + j))) ∧
    (∀ (q : QModel) qs1 qs2, q.isAcceptable = false →
      get_quick_lines (qs1 ++ q :: qs2) = get_quick_lines (qs1 ++ qs2) ∧
      ulLines (qs1 ++ q :: qs2) = ulLines (qs1 ++ qs2)) := by
  refine ⟨?_, ?_, ?_, ?_, ?_⟩
  · intro i m hsyn hdet
    refine ⟨rfl, rfl, ?_, ?_⟩
    · intro hul
      have h1 : detectOnce check findUL i m = markFailed m := by
        simp [detectOnce, hsyn, hdet, hul]
      exact ⟨h1, by rw [h1]; rfl, by rw [h1]; rfl, by rw [h1]; rfl⟩
    · intro m2 hul
      simp [detectOnce, hsyn, hdet, hul]
  · intro i m hsyn hdet
    simp [detectOnce, hsyn, hdet]
  · intro i m hsyn
    simp [detectOnce, hsyn]
  · intro i ms
    induction ms generalizing i with
    | nil => exact ⟨rfl, fun j => rfl⟩
    | cons m ms ih =>
        refine ⟨by simp [detectPhase, (ih (i + 1)).1], ?_⟩
        intro j
        cases j with
        | zero => simp [detectPhase]
        | succ j =>
            have := (ih (i + 1)).2 j
            simpa [detectPhase, Nat.add_assoc, Nat.add_comm 1 j] using this
  · intro q qs1 qs2 hq
    constructor <;>
      simp [get_quick_lines, ulLines, List.filter_append, List.filter_cons, hq]

/-- Witness for C5: an engine that never detects and whose upper-limit search
raises leaves a default synthesis model demoted. -/
theorem C5_witness :
    detectOnce (fun _ _ _ => (false, 0)) (fun _ _ _ => none) 0 {} = markFailed {} :=
  (((C5_detection_and_upper_limit (fun _ _ _ => (false, 0))
    (fun _ _ _ => none)).1 0 {} rfl rfl).2.2.1 rfl).1

/-- The uniform mean used by the robust scatter estimator of
`get_fullerrors_lines`: `w = np.ones(len(t)); xhat = sum(w*logeps)/sum(w)`.
A group element is a pair (logeps, e_stat²). -/
def xhat (g : List (ℚ × ℚ)) : ℚ :=
  (List.zipWith (fun a b => a * b) (g.map (fun _ => (1 : ℚ))) (g.map Prod.fst)).sum /
    (g.map (fun _ => (1 : ℚ))).sum

/-- The residual of the robust scatter estimator:
func(s) = Σ dxᵢ²/(exᵢ²+s²)² − Σ 1/(exᵢ²+s²), with dxᵢ = logepsᵢ − xhat.
The statistical error `ex` enters the source only through its square, which
the pair's second component carries directly. -/
def sfunc (g : List (ℚ × ℚ)) (xh s : ℚ) : ℚ :=
  (g.map (fun p => (p.1 - xh) ^ 2 / (p.2 + s ^ 2) ^ 2)).sum -
    (g.map (fun p => 1 / (p.2 + s ^ 2))).sum

/-- The bracket upper end of the scatter root-finding: s_max = 3.0 dex. -/
def sMax : ℚ := 3

/-- Outcome of the per-species scatter estimation: `ok s warned` is a
retained estimate (`warned` is the for-else "did not converge" message),
`aborted` is the re-raised root-finder failure. -/
inductive ScatterResult where
  | ok : ℚ → Bool → ScatterResult
  | aborted : ScatterResult
deriving DecidableEq, Repr

/-- The outer fixed-point loop of the scatter estimator (100 iterations,
starting from s_old = 0).  Each iteration recomputes the uniform mean and the
residual, then: if func(0) < func(s_max), sets s = 0 and stops; otherwise it
calls `optimize.brentq` on [0, s_max].  Modelled from the spec: brentq is a
bracketed (bisection-class) root-finder that raises ValueError exactly when
the residual has the same strict sign at both bracket ends
(func(0)·func(s_max) > 0); its returned root is the oracle parameter `root`.
On ValueError the source prints, enters the debugger and re-raises
(`aborted`); otherwise it stops once successive estimates differ by less than
0.01.  Exhausting the 100 iterations reaches the for-else warning with the
last estimate kept. -/
def scatterLoop (root : ℚ) (g : List (ℚ × ℚ)) : ℕ → ℚ → ScatterResult
  | 0, sOld => .ok sOld true
  | n + 1, sOld =>
    if sfunc g (xhat g) 0 < sfunc g (xhat g) sMax then .ok 0 false
    else if 0 < sfunc g (xhat g) 0 * sfunc g (xhat g) sMax then .aborted
    else
      if |sOld - root| < 1 / 100 then .ok root false
      else scatterLoop root g n root

/-- The per-species scatter estimation of `get_fullerrors_lines`:
the outer loop run with 100 iterations from s = s_old = 0. -/
def scatterEstimate (root : ℚ) (g : List (ℚ × ℚ)) : ScatterResult :=
  scatterLoop root g 100 0

theorem scatterLoop_guard (root : ℚ) (g : List (ℚ × ℚ))
    (h1 : sfunc g (xhat g) 0 < sfunc g (xhat g) sMax) (n : ℕ) (sOld : ℚ) :
    scatterLoop root g (n + 1) sOld = .ok 0 false := by
  rw [scatterLoop, if_pos h1]

theorem scatterLoop_abort (root : ℚ) (g : List (ℚ × ℚ))
    (h1 : ¬sfunc g (xhat g) 0 < sfunc g (xhat g) sMax)
    (h2 : 0 < sfunc g (xhat g) 0 * sfunc g (xhat g) sMax) (n : ℕ) (sOld : ℚ) :
    scatterLoop root g (n + 1) sOld = .aborted := by
  rw [scatterLoop, if_neg h1, if_pos h2]

theorem scatterLoop_root (root : ℚ) (g : List (ℚ × ℚ))
    (h1 : ¬sfunc g (xhat g) 0 < sfunc g (xhat g) sMax)
    (h2 : ¬0 < sfunc g (xhat g) 0 * sfunc g (xhat g) sMax) (n : ℕ) (sOld : ℚ) :
    scatterLoop root g (n + 2) sOld = .ok root false := by
  rw [scatterLoop, if_neg h1, if_neg h2]
  by_cases h3 : |sOld - root| < 1 / 100
  · rw [if_pos h3]
  · rw [if_neg h3, scatterLoop, if_neg h1, if_neg h2, if_pos (by simp)]

/-- C1 counterexample: a two-line group with spread 8 dex and statistical
error 0.1 dex has a residual that is strictly positive at both bracket ends
with func(0) ≥ func(s_max), so the embedded estimator reaches the re-raise
path and aborts — refuting both "no sign change sets s = 0" and "a root-finder
failure never aborts the batch". -/
theorem C1_counterexample :
    scatterEstimate 0 [(0, 1 / 100), (8, 1 / 100)] = ScatterResult.aborted := by
  have h1 : ¬sfunc [((0 : ℚ), (1 : ℚ) / 100), (8, 1 / 100)]
      (xhat [((0 : ℚ), (1 : ℚ) / 100), (8, 1 / 100)]) 0 <
      sfunc [((0 : ℚ), (1 : ℚ) / 100), (8, 1 / 100)]
      (xhat [((0 : ℚ), (1 : ℚ) / 100), (8, 1 / 100)]) sMax := by
    norm_num [sfunc, xhat, sMax]
  have h2 : 0 < sfunc [((0 : ℚ), (1 : ℚ) / 100), (8, 1 / 100)]
      (xhat [((0 : ℚ), (1 : ℚ) / 100), (8, 1 / 100)]) 0 *
      sfunc [((0 : ℚ), (1 : ℚ) / 100), (8, 1 / 100)]
      (xhat [((0 : ℚ), (1 : ℚ) / 100), (8, 1 / 100)]) sMax := by
    norm_num [sfunc, xhat, sMax]
  exact scatterLoop_abort 0 _ h1 h2 99 0

/-- C1 amended: each iteration of the estimator is a trichotomy — if
func(0) < func(s_max) the scatter is set to 0 (which covers the no-sign-change
brackets with func everywhere increasing past func(0)); if the residual has
the same strict sign at 0 and s_max while func(0) ≥ func(s_max), the brentq
ValueError is re-raised and the batch aborts; otherwise the bracketed root is
returned, the fixed point is reached within two iterations, and only
exhaustion of the 100 outer iterations would produce the per-species warning
with the last computed s retained. -/
theorem C1_amended_scatter_control_flow (root : ℚ) (g : List (ℚ × ℚ)) :
    scatterEstimate root g =
      if sfunc g (xhat g) 0 < sfunc g (xhat g) sMax then ScatterResult.ok 0 false
      else if 0 < sfunc g (xhat g) 0 * sfunc g (xhat g) sMax then ScatterResult.aborted
      else ScatterResult.ok root false := by
  by_cases h1 : sfunc g (xhat g) 0 < sfunc g (xhat g) sMax
  · rw [if_pos h1]
    exact scatterLoop_guard root g h1 99 0
  · by_cases h2 : 0 < sfunc g (xhat g) 0 * sfunc g (xhat g) sMax
    · rw [if_neg h1, if_pos h2]
      exact scatterLoop_abort root g h1 h2 99 0
    · rw [if_neg h1, if_neg h2]
      exact scatterLoop_root root g h1 h2 98 0

theorem zipWith_mul_ones (n : ℕ) (x : ℚ) :
    List.zipWith (fun a b => a * b) (List.replicate n (1 : ℚ)) (List.replicate n x) =
      List.replicate n x := by
  induction n with
  | zero => rfl
  | succ n ih => simp [List.replicate_succ, ih]

theorem xhat_replicate (n : ℕ) (hn : 1 ≤ n) (x q : ℚ) :
    xhat (List.replicate n (x, q)) = x := by
  have hne : ((n : ℚ)) ≠ 0 := by
    have : (0 : ℚ) < (n : ℚ) := by exact_mod_cast hn
    exact this.ne'
  simp [xhat, List.map_replicate, zipWith_mul_ones, List.sum_replicate, nsmul_eq_mul,
    mul_comm, hne]

theorem sfunc_replicate (n : ℕ) (x q s : ℚ) :
    sfunc (List.replicate n (x, q)) x s = -((n : ℚ) * (1 / (q + s ^ 2))) := by
  simp [sfunc, List.map_replicate, List.sum_replicate, nsmul_eq_mul]

/-- C9: a species group whose fitted abundances all coincide, with one common
positive statistical error, makes func(0) < func(s_max) hold, so the
estimator returns s = 0 without warning. -/
theorem C9_zero_spread_zero_scatter (root x σ : ℚ) (n : ℕ) (hn : 1 ≤ n) (hσ : 0 < σ) :
    scatterEstimate root (List.replicate n (x, σ ^ 2)) = ScatterResult.ok 0 false := by
  have hx := xhat_replicate n hn x (σ ^ 2)
  have hq : (0 : ℚ) < σ ^ 2 := by positivity
  have hnq : (0 : ℚ) < (n : ℚ) := by exact_mod_cast hn
  have h1 : sfunc (List.replicate n (x, σ ^ 2)) (xhat (List.replicate n (x, σ ^ 2))) 0 <
      sfunc (List.replicate n (x, σ ^ 2)) (xhat (List.replicate n (x, σ ^ 2))) sMax := by
    rw [hx, sfunc_replicate, sfunc_replicate]
    have h9 : σ ^ 2 + 0 ^ 2 < σ ^ 2 + sMax ^ 2 := by
      rw [show sMax = 3 from rfl]; nlinarith
    have hpos : (0 : ℚ) < σ ^ 2 + 0 ^ 2 := by positivity
    have hone := one_div_lt_one_div_of_lt hpos h9
    have hmul := mul_lt_mul_of_pos_left hone hnq
    linarith
  exact scatterLoop_guard root _ h1 99 0

/-- Witness for C9: two identical measurements with σ = 0.1 give s = 0. -/
theorem C9_witness :
    scatterEstimate 0 (List.replicate 2 (5, (1 / 10 : ℚ) ^ 2)) = ScatterResult.ok 0 false :=
  C9_zero_spread_zero_scatter 0 5 (1 / 10) 2 (by norm_num) (by norm_num)

/-- One spectral model as seen by `get_fullerrors_lines`: flags plus the
fitted abundance, the statistical error (after the synthesis covariance
max, which precedes the claims at hand), and the four stellar-parameter
systematic abundance shifts. -/
structure EModel where
  isAcceptable : Bool := true
  isUpperLimit : Bool := false
  species : ℚ := 0
  logeps : ℚ := 0
  staterr : ℚ := 0
  eT : ℚ := 0
  eg : ℚ := 0
  ev : ℚ := 0
  eM : ℚ := 0
deriving DecidableEq, Repr

/-- The 4-vector `e_all = [e_Teff, e_logg, e_vt, e_MH]`. -/
def sysVec (m : EModel) : Fin 4 → ℚ
  | 0 => m.eT
  | 1 => m.eg
  | 2 => m.ev
  | 3 => m.eM

/-- The quadratic form `e_all.T.dot(rhomat.dot(e_all))` of
`get_fullerrors_lines`; its value is the square of the combined systematic
error `syserr`. -/
def quadForm (rho : Fin 4 → Fin 4 → ℚ) (e : Fin 4 → ℚ) : ℚ :=
  ∑ i, ∑ j, e i * rho i j * e j

/-- One row of the full-errors line table.  `e_stat_sq`, `e_sys_sq` and
`e_tot_sq` carry the squares of the table's `e_stat`, `e_sys` and `e_tot`
columns; `none` models the `np.nan` placeholder the source appends before the
final column assignments. -/
structure ERow where
  species : ℚ
  logeps : ℚ
  e_stat_sq : ℚ
  eT : ℚ
  eg : ℚ
  ev : ℚ
  eM : ℚ
  e_sys_sq : ℚ
  e_tot_sq : Option ℚ
  weight : Option ℚ
deriving DecidableEq, Repr

/-- The default minimum statistical error floor (`minerr=0.001`). -/
def minerrDefault : ℚ := 1 / 1000

/-- The default constant systematic error (`default_esys=0.1`). -/
def defaultEsysValue : ℚ := 1 / 10

/-- The per-line extraction of `get_fullerrors_lines`: the floored
statistical error `sqrt(staterr² + minerr²)` (carried squared), the four raw
systematic deltas, and the correlation-combined systematic `sqrt(eᵗ·R·e)`
(carried squared) placed in the `e_sys` column, with NaN placeholders in
`e_tot` and `weight`. -/
def fullErrorRow (rho : Fin 4 → Fin 4 → ℚ) (minerr : ℚ) (m : EModel) : ERow :=
  { species := m.species, logeps := m.logeps,
    e_stat_sq := m.staterr ^ 2 + minerr ^ 2,
    eT := m.eT, eg := m.eg, ev := m.ev, eM := m.eM,
    e_sys_sq := quadForm rho (sysVec m),
    e_tot_sq := none, weight := none }

/-- The unconditional overwrite `tab["e_sys"] = default_esys` of
`get_fullerrors_lines` (values carried squared). -/
def setDefaultEsys (d : ℚ) (rows : List ERow) : List ERow :=
  rows.map (fun r => { r with e_sys_sq := d ^ 2 })

/-- The `estimate_systematic_error` branch of `get_fullerrors_lines`: per
`np.unique` species, the scatter estimator runs on the (logeps, e_stat²)
pairs of the group and its result is written into the group's `e_sys` column;
an aborted estimation (the source's re-raise) aborts the whole table. -/
def estimateEsysGo (root : ℚ → ℚ) : List ℚ → List ERow → Except Unit (List ERow)
  | [], rows => .ok rows
  | s :: ss, rows =>
    let pairs := (rows.filter (fun r => decide (r.species = s))).map
      (fun r => (r.logeps, r.e_stat_sq))
    match scatterEstimate (root s) pairs with
    | .aborted => .error ()
    | .ok sv _ =>
        estimateEsysGo root ss
          (rows.map (fun r => if r.species = s then { r with e_sys_sq := sv ^ 2 } else r))

/-- The closing column assignments of `get_fullerrors_lines`:
`e_tot = sqrt(e_stat² + e_sys² + e_Teff² + e_logg² + e_vt² + e_MH²)` and
`weight = e_tot⁻²` (both carried squared / inverse-squared). -/
def finalizeErrors (rows : List ERow) : List ERow :=
  rows.map (fun r =>
    let t := r.e_stat_sq + r.e_sys_sq + r.eT ^ 2 + r.eg ^ 2 + r.ev ^ 2 + r.eM ^ 2
    { r with e_tot_sq := some t, weight := some t⁻¹ })

/-- Embedding of `get_fullerrors_lines` (run_summary.py): filter the accepted
non-upper-limit models, build the per-line rows, overwrite `e_sys` with the
default, optionally re-estimate `e_sys` per species, then fill `e_tot` and
`weight`. -/
def get_fullerrors_lines (rho : Fin 4 → Fin 4 → ℚ) (minerr d : ℚ) (estimate : Bool)
    (root : ℚ → ℚ) (models : List EModel) : Except Unit (List ERow) :=
  let rows0 := (models.filter (fun m => m.isAcceptable && !m.isUpperLimit)).map
    (fullErrorRow rho minerr)
  let rows := setDefaultEsys d rows0
  match (if estimate then estimateEsysGo root (uniqueSorted (rows.map ERow.species)) rows
         else .ok rows) with
  | .error e => .error e
  | .ok rows2 => .ok (finalizeErrors rows2)

/-- Following the spec's words for C2 (refinement comparison): total error
squared = floored statistical² + correlation-combined stellar-parameter
systematic² + per-species scatter². -/
def specTotalErrSq (rho : Fin 4 → Fin 4 → ℚ) (minerr : ℚ) (m : EModel) (s : ℚ) : ℚ :=
  (m.staterr ^ 2 + minerr ^ 2) + quadForm rho (sysVec m) + s ^ 2

/-- A correlation matrix with unit diagonal and correlation 1/2 between the
first two stellar parameters. -/
def rho0 : Fin 4 → Fin 4 → ℚ := fun i j =>
  if i = j then 1 else if (i = 0 ∧ j = 1) ∨ (i = 1 ∧ j = 0) then 1 / 2 else 0

/-- A concrete line with statistical error 0.1 and Teff/logg shifts 0.1. -/
def m0 : EModel := { species := 26, logeps := 7, staterr := 1 / 10, eT := 1 / 10, eg := 1 / 10 }

/-- C2 counterexample: on a single line with correlated Teff/logg shifts, the
code's total error squared (0.030001) differs from the claim's formula
floored-stat² + (eᵗ·R·e) + scatter² (0.040001): the correlation-combined term
is discarded and the four raw deltas are summed instead. -/
theorem C2_counterexample :
    get_fullerrors_lines rho0 minerrDefault defaultEsysValue true (fun _ => 0) [m0] =
      .ok [{ species := 26, logeps := 7, e_stat_sq := 10001 / 1000000, eT := 1 / 10,
             eg := 1 / 10, ev := 0, eM := 0, e_sys_sq := 0,
             e_tot_sq := some (30001 / 1000000), weight := some (1000000 / 30001) }] ∧
    specTotalErrSq rho0 minerrDefault m0 0 = 40001 / 1000000 ∧
    (30001 / 1000000 : ℚ) ≠ 40001 / 1000000 := by
  refine ⟨?_, ?_, by norm_num⟩
  · have hscat : scatterEstimate 0 [((7 : ℚ), 10001 / 1000000)] = ScatterResult.ok 0 false :=
      scatterLoop_guard 0 _ (by norm_num [sfunc, xhat, sMax]) 99 0
    norm_num [get_fullerrors_lines, setDefaultEsys, fullErrorRow, estimateEsysGo,
      finalizeErrors, uniqueSorted, insertUniq, List.filter_cons, m0, minerrDefault,
      defaultEsysValue, quadForm, Fin.sum_univ_four, rho0, sysVec, hscat]
  · norm_num [specTotalErrSq, quadForm, Fin.sum_univ_four, rho0, sysVec, m0, minerrDefault]

theorem estimateEsysGo_map_invariant (root : ℚ → ℚ) (f : ERow → ℚ)
    (hf : ∀ r v, f { r with e_sys_sq := v } = f r) :
    ∀ (ss : List ℚ) (rows rows2 : List ERow),
      estimateEsysGo root ss rows = .ok rows2 → rows2.map f = rows.map f := by
  intro ss
  induction ss with
  | nil =>
      intro rows rows2 h
      cases h
      rfl
  | cons s ss ih =>
      intro rows rows2 h
      rw [estimateEsysGo] at h
      cases he : scatterEstimate (root s)
          ((rows.filter (fun r => decide (r.species = s))).map
            (fun r => (r.logeps, r.e_stat_sq))) with
      | ok sv w =>
          simp only [he] at h
          have h2 := ih _ _ h
          rw [h2, List.map_map]
          apply List.map_congr_left
          intro r _
          by_cases hs : r.species = s
          · show f (if r.species = s then _ else r) = f r
            rw [if_pos hs]
            exact hf r (sv ^ 2)
          · show f (if r.species = s then _ else r) = f r
            rw [if_neg hs]
      | aborted =>
          simp only [he] at h
          exact Except.noConfusion h

theorem finalizeErrors_core (rows : List ERow) (r : ERow) (hr : r ∈ finalizeErrors rows) :
    r.e_tot_sq = some (r.e_stat_sq + r.e_sys_sq + r.eT ^ 2 + r.eg ^ 2 + r.ev ^ 2 + r.eM ^ 2) ∧
    r.weight = some ((r.e_stat_sq + r.e_sys_sq + r.eT ^ 2 + r.eg ^ 2 + r.ev ^ 2 + r.eM ^ 2)⁻¹) := by
  simp only [finalizeErrors, List.mem_map] at hr
  obtain ⟨x, _, rfl⟩ := hr
  exact ⟨rfl, rfl⟩

/-- C2 amended: every row of the full-errors table has its statistical error
floored as stat² + minerr² (carried squared, default floor 0.001), and the
total satisfies e_tot² = e_stat² + e_sys² + e_Teff² + e_logg² + e_vt² + e_MH²
with weight = e_tot⁻²; the correlation-combined systematic is overwritten and
does not enter e_tot (the claim's combined term is refuted by the
counterexample). -/
theorem C2_amended_error_combination (rho : Fin 4 → Fin 4 → ℚ) (minerr d : ℚ)
    (estimate : Bool) (root : ℚ → ℚ) (models : List EModel) (rows : List ERow)
    (h : get_fullerrors_lines rho minerr d estimate root models = .ok rows) :
    (∀ r ∈ rows,
      r.e_tot_sq = some (r.e_stat_sq + r.e_sys_sq + r.eT ^ 2 + r.eg ^ 2 + r.ev ^ 2 + r.eM ^ 2) ∧
      r.weight = some ((r.e_stat_sq + r.e_sys_sq + r.eT ^ 2 + r.eg ^ 2 + r.ev ^ 2 + r.eM ^ 2)⁻¹)) ∧
    rows.map ERow.e_stat_sq =
      (models.filter (fun m => m.isAcceptable && !m.isUpperLimit)).map
        (fun m => m.staterr ^ 2 + minerr ^ 2) := by
  rw [get_fullerrors_lines] at h
  set R := setDefaultEsys d
    ((models.filter (fun m => m.isAcceptable && !m.isUpperLimit)).map
      (fullErrorRow rho minerr)) with hR
  have key : ∃ rows2, rows = finalizeErrors rows2 ∧
      rows2.map ERow.e_stat_sq = R.map ERow.e_stat_sq := by
    cases hb : estimate with
    | false =>
        simp only [hb, Bool.false_eq_true, if_false] at h
        exact ⟨R, (Except.ok.inj h).symm, rfl⟩
    | true =>
        simp only [hb, if_true] at h
        cases hin : estimateEsysGo root (uniqueSorted (R.map ERow.species)) R with
        | error e =>
            simp only [hin] at h
            exact Except.noConfusion h
        | ok rows2 =>
            simp only [hin] at h
            exact ⟨rows2, (Except.ok.inj h).symm,
              estimateEsysGo_map_invariant root ERow.e_stat_sq (fun r v => rfl) _ _ _ hin⟩
  obtain ⟨rows2, rfl, hstat⟩ := key
  refine ⟨fun r hr => finalizeErrors_core rows2 r hr, ?_⟩
  have hfin : (finalizeErrors rows2).map ERow.e_stat_sq = rows2.map ERow.e_stat_sq := by
    rw [finalizeErrors, List.map_map]
    apply List.map_congr_left
    intro r _
    rfl
  rw [hfin, hstat, hR, setDefaultEsys, List.map_map, List.map_map]
  apply List.map_congr_left
  intro m _
  rfl

/-- The single row the full-errors pipeline produces from `m0` with the
estimation mode off. -/
def rowW : ERow :=
  { species := 26, logeps := 7, e_stat_sq := 10001 / 1000000, eT := 1 / 10,
    eg := 1 / 10, ev := 0, eM := 0, e_sys_sq := 1 / 100,
    e_tot_sq := some (40001 / 1000000), weight := some (1000000 / 40001) }

/-- Witness for C2 (amended): the pipeline on the concrete line `m0` with the
estimation mode off. -/
theorem C2_witness :
    (∀ r ∈ [rowW],
      r.e_tot_sq = some (r.e_stat_sq + r.e_sys_sq + r.eT ^ 2 + r.eg ^ 2 + r.ev ^ 2 + r.eM ^ 2) ∧
      r.weight = some ((r.e_stat_sq + r.e_sys_sq + r.eT ^ 2 + r.eg ^ 2 + r.ev ^ 2 + r.eM ^ 2)⁻¹)) ∧
    [rowW].map ERow.e_stat_sq =
      ([m0].filter (fun m => m.isAcceptable && !m.isUpperLimit)).map
        (fun m => m.staterr ^ 2 + minerrDefault ^ 2) :=
  C2_amended_error_combination rho0 minerrDefault defaultEsysValue false (fun _ => 0) [m0]
    [rowW]
    (by norm_num [get_fullerrors_lines, setDefaultEsys, fullErrorRow, finalizeErrors,
      List.filter_cons, m0, rowW, minerrDefault, defaultEsysValue, quadForm,
      Fin.sum_univ_four, rho0, sysVec])

/-- C10: with the scatter-estimation mode disabled, the output table does not
depend on the correlation matrix (nor on the root-finder oracle), and every
row's e_sys equals the constant default (carried squared): the per-line
combined sqrt(eᵗ·R·e) is overwritten before e_tot is computed. -/
theorem C10_default_esys_overwrites_combined (rho1 rho2 : Fin 4 → Fin 4 → ℚ)
    (minerr d : ℚ) (root1 root2 : ℚ → ℚ) (models : List EModel) :
    get_fullerrors_lines rho1 minerr d false root1 models =
      get_fullerrors_lines rho2 minerr d false root2 models ∧
    ∃ rows, get_fullerrors_lines rho1 minerr d false root1 models = .ok rows ∧
      ∀ r ∈ rows, r.e_sys_sq = d ^ 2 := by
  have hset : ∀ rho : Fin 4 → Fin 4 → ℚ,
      setDefaultEsys d
        ((models.filter (fun m => m.isAcceptable && !m.isUpperLimit)).map
          (fullErrorRow rho minerr)) =
      (models.filter (fun m => m.isAcceptable && !m.isUpperLimit)).map
        (fun m => { fullErrorRow rho1 minerr m with e_sys_sq := d ^ 2 }) := by
    intro rho
    rw [setDefaultEsys, List.map_map]
    apply List.map_congr_left
    intro m _
    rfl
  constructor
  · show Except.ok (finalizeErrors (setDefaultEsys d
        ((models.filter (fun m => m.isAcceptable && !m.isUpperLimit)).map
          (fullErrorRow rho1 minerr)))) =
      Except.ok (finalizeErrors (setDefaultEsys d
        ((models.filter (fun m => m.isAcceptable && !m.isUpperLimit)).map
          (fullErrorRow rho2 minerr))))
    rw [hset rho1, hset rho2]
  · refine ⟨finalizeErrors (setDefaultEsys d
      ((models.filter (fun m => m.isAcceptable && !m.isUpperLimit)).map
        (fullErrorRow rho1 minerr))), ?_, ?_⟩
    · rfl
    intro r hr
    simp only [finalizeErrors, setDefaultEsys, List.map_map, List.mem_map] at hr
    obtain ⟨m, _, rfl⟩ := hr
    rfl

/-- Witness for C10: the table on `m0` is the same under the correlated and
the zero correlation matrix. -/
theorem C10_witness :
    get_fullerrors_lines rho0 minerrDefault defaultEsysValue false (fun _ => 0) [m0] =
      get_fullerrors_lines (fun _ _ => 0) minerrDefault defaultEsysValue false
        (fun _ => 1) [m0] :=
  (C10_default_esys_overwrites_combined rho0 (fun _ _ => 0) minerrDefault defaultEsysValue
    (fun _ => 0) (fun _ => 1) [m0]).1

/-- One per-element entry of the session abundance aggregate.  Modelled from
the spec: `session.summarize_spectral_models(organize_by_element=True)` is
repository code not under src/; the Abundance Aggregator maps an element to a
tuple whose component 1 (`v1`) is the aggregated log-abundance used as the
prior and whose component 4 (`v4`) is the iron-relative value consulted for
the Mg and Eu anchors.  `v4 = none` models a NaN there; the source sends a
NaN anchor to the same outcome (0) as a missing element. -/
structure SummaryEntry where
  v1 : ℚ
  v4 : Option ℚ
deriving DecidableEq, Repr

/-- Embedding of `update_abundance_table` (run_synth_fit.py): the prior for a
directly-measured element is its aggregated abundance, otherwise the solar
value offset by the bulk metallicity MH. -/
def update_abundance_table (solar : String → ℚ) (MH : ℚ)
    (dict : String → Option SummaryEntry) (elems : List String) : List (String × ℚ) :=
  elems.map (fun e => (e,
    match dict e with
    | some en => en.v1
    | none => solar e + MH))

/-- The clip `max(min(x, 0.4), -0.4)` applied to the Mg anchor. -/
def clip04 (x : ℚ) : ℚ := max (min x (4 / 10)) (-(4 / 10))

/-- The alpha anchor of `update_abundance_table_2`: [Mg/M], clipped to
[-0.4, 0.4]; 0 when Mg is missing or NaN. -/
def mgAnchor (MH : ℚ) (dict : String → Option SummaryEntry) : ℚ :=
  match (dict ("Mg")).bind SummaryEntry.v4 with
  | some v => clip04 (v - MH)
  | none => 0

/-- The r-process anchor of `update_abundance_table_2`: [Eu/M], not clipped;
0 when Eu is missing or NaN. -/
def euAnchor (MH : ℚ) (dict : String → Option SummaryEntry) : ℚ :=
  match (dict ("Eu")).bind SummaryEntry.v4 with
  | some v => v - MH
  | none => 0

/-- The [X/Eu] table from Sneden+08 used for the r-process scaling. -/
def XEuList : List (String × ℚ) :=
  [("Sr", -(95 / 100)), ("Y", -(54 / 100)), ("Zr", -(71 / 100)),
   ("Nb", -(48 / 100)), ("Mo", -(47 / 100)), ("Ru", -(18 / 100)),
   ("Rh", -(7 / 100)), ("Ba", -(83 / 100)), ("La", -(60 / 100)),
   ("Ce", -(71 / 100)), ("Pr", -(28 / 100)), ("Nd", -(36 / 100)),
   ("Sm", -(14 / 100)), ("Gd", -(7 / 100)), ("Tb", -(2 / 100)),
   ("Dy", -(5 / 100)), ("Ho", -(2 / 100)), ("Er", -(6 / 100)),
   ("Tm", -(7 / 100)), ("Yb", -(16 / 100)), ("Lu", -(8 / 100)),
   ("Hf", -(27 / 100)), ("Os", -(3 / 100)), ("Ir", 0)]

/-- The element-specific scaling [X/M] of `update_abundance_table_2` for an
element without a measured abundance: the Mg anchor for O/Si/Ca/Ti, affine
relations in MH for Cr and Mn, the Eu anchor plus the Sneden offset for the
r-process elements, and 0 otherwise. -/
def xmScaling (MH MgM EuM : ℚ) (e : String) : ℚ :=
  if e = "O" ∨ e = "Si" ∨ e = "Ca" ∨ e = "Ti" then MgM
  else if e = "Cr" then 144 / 1000 + 129 / 1000 * MH
  else if e = "Mn" then -(234 / 1000) + 96 / 1000 * MH
  else
    match List.lookup e XEuList with
    | some x => EuM + x
    | none => 0

/-- Embedding of `update_abundance_table_2` (run_synth_fit.py): measured
elements keep their aggregated abundance; unmeasured elements get
solar + MH + the element-specific scaling built from the Mg anchor (clipped)
and the Eu anchor (not clipped). -/
def update_abundance_table_2 (solar : String → ℚ) (MH : ℚ)
    (dict : String → Option SummaryEntry) (elems : List String) : List (String × ℚ) :=
  elems.map (fun e => (e,
    match dict e with
    | some en => en.v1
    | none => solar e + MH + xmScaling MH (mgAnchor MH dict) (euAnchor MH dict) e))

/-- Following the spec's words for C8 (refinement comparison): the same
update with both anchor values clipped to the bounded range [-0.4, 0.4]. -/
def update_abundance_table_2_spec (solar : String → ℚ) (MH : ℚ)
    (dict : String → Option SummaryEntry) (elems : List String) : List (String × ℚ) :=
  elems.map (fun e => (e,
    match dict e with
    | some en => en.v1
    | none => solar e + MH +
        xmScaling MH (mgAnchor MH dict) (clip04 (euAnchor MH dict)) e))

/-- An aggregate with only Eu measured, at [Eu/H]-like value 5. -/
def dictEx : String → Option SummaryEntry := fun e =>
  if e = "Eu" then some ⟨0, some 5⟩ else none

/-- C8 counterexample: with the Eu anchor at 5 (far outside [-0.4, 0.4]) and
MH = 0, the code's Ba prior is solar + 5 - 0.83 = 4.17 while clipping the
anchor as the claim states would give solar + 0.4 - 0.83 = -0.43. -/
theorem C8_counterexample :
    update_abundance_table_2 (fun _ => 0) 0 dictEx [("Ba")] = [(("Ba"), 417 / 100)] ∧
    update_abundance_table_2_spec (fun _ => 0) 0 dictEx [("Ba")] = [(("Ba"), -(43 / 100))] ∧
    ((417 : ℚ) / 100 ≠ -(43 / 100)) := by
  refine ⟨?_, ?_, by norm_num⟩
  · simp [update_abundance_table_2, dictEx, euAnchor, mgAnchor, xmScaling,
      clip04, XEuList, List.lookup]
    norm_num
  · simp [update_abundance_table_2_spec, dictEx, euAnchor, mgAnchor, xmScaling,
      clip04, XEuList, List.lookup]
    norm_num

/-- C8 amended: for an element without a measured aggregated abundance, the
first-phase prior is solar + MH; the later-phase prior is solar + MH + the
element-specific scaling, where the Mg anchor is clipped to [-0.4, 0.4] but
the Eu anchor is used unclipped; measured elements keep their aggregated
abundance in both phases. -/
theorem C8_amended_priors (solar : String → ℚ) (MH : ℚ)
    (dict : String → Option SummaryEntry) (elems : List String) :
    (∀ p ∈ update_abundance_table solar MH dict elems,
      dict p.1 = none → p.2 = solar p.1 + MH) ∧
    (∀ p ∈ update_abundance_table_2 solar MH dict elems,
      dict p.1 = none →
        p.2 = solar p.1 + MH + xmScaling MH (mgAnchor MH dict) (euAnchor MH dict) p.1) ∧
    |mgAnchor MH dict| ≤ 4 / 10 ∧
    (∀ v, (dict ("Eu")).bind SummaryEntry.v4 = some v → euAnchor MH dict = v - MH) ∧
    (∀ p ∈ update_abundance_table solar MH dict elems,
      ∀ en, dict p.1 = some en → p.2 = en.v1) ∧
    (∀ p ∈ update_abundance_table_2 solar MH dict elems,
      ∀ en, dict p.1 = some en → p.2 = en.v1) := by
  refine ⟨?_, ?_, ?_, ?_, ?_, ?_⟩
  · intro p hp hd
    simp only [update_abundance_table, List.mem_map] at hp
    obtain ⟨e, _, rfl⟩ := hp
    simp only at hd
    simp [hd]
  · intro p hp hd
    simp only [update_abundance_table_2, List.mem_map] at hp
    obtain ⟨e, _, rfl⟩ := hp
    simp only at hd
    simp [hd]
  · rw [mgAnchor]
    cases hv : (dict ("Mg")).bind SummaryEntry.v4 with
    | none => norm_num
    | some v =>
        rw [abs_le]
        unfold clip04
        constructor
        · exact le_max_right _ _
        · exact max_le (le_trans (min_le_right _ _) (by norm_num)) (by norm_num)
  · intro v hv
    rw [euAnchor, hv]
  · intro p hp en hd
    simp only [update_abundance_table, List.mem_map] at hp
    obtain ⟨e, _, rfl⟩ := hp
    simp only at hd
    simp [hd]
  · intro p hp en hd
    simp only [update_abundance_table_2, List.mem_map] at hp
    obtain ⟨e, _, rfl⟩ := hp
    simp only at hd
    simp [hd]

/-- Witness for C8 (amended): with nothing measured, solar = 1 and MH = 2 the
phase-1 prior of Ba is 3. -/
theorem C8_witness :
    ((("Ba"), (3 : ℚ)) : String × ℚ).2 = (fun _ => (1 : ℚ)) (("Ba") : String) + 2 :=
  (C8_amended_priors (fun _ => 1) 2 (fun _ => none) [("Ba")]).1 (("Ba"), 3)
    (by norm_num [update_abundance_table]) rfl

end LESSPayne
